import Mathlib

/-!
Verification development for the libavif gain-map utility and color
conversion engine.  The combine/swapbase commands are embedded from
`apps/avifgainmaputil/combine_command.cc` / `swapbase_command.cc`; the
RGB↔YUV conversion engine (`avifImageRGBToYUV` / `avifImageYUVToRGB`,
implemented in `reformat.c`, which is not part of the provided sources)
is modelled from the specification's description of its contract.

The file is organized with all definitions first, followed by all
theorems.
-/

namespace Avif

/-! ### Round-to-nearest sample rescaling

Modelled from the spec: "Results are quantized to the target depth and
range (FULL maps the full numeric range ...), with rounding to nearest"
and, for the inverse direction, "results are clamped to the representable
range of the target RGB depth".  A sample `v` at white level `M`
(i.e. `v ∈ [0, M]`, full range) is mapped to white level `M2` by
`round(v * M2 / M)`; these definitions express round half up on
nonnegative rationals by integer arithmetic.
-/

/-- Rescale sample `v` from white level `M` to white level `M2` with
rounding to nearest (round half up): `⌊v * M2 / M + 1/2⌋`. -/
def scaleRound (M M2 v : Nat) : Nat :=
  (2 * v * M2 + M) / (2 * M)

/-- Rescale a YUV sample at white level `M2` back to an RGB sample at
white level `M`, rounding to nearest and clamping to `[0, M]`. -/
def scaleRoundClamp (M2 M y : Nat) : Nat :=
  min M ((2 * y * M + M2) / (2 * M2))

/-! ### IDENTITY matrix coefficients (H.273 code 0)

Modelled from the spec: the `AVIF_MATRIX_COEFFICIENTS_IDENTITY` path of
`avifImageRGBToYUV` / `avifImageYUVToRGB` (implemented in `reformat.c`,
absent from the provided sources): "IDENTITY (direct channel copy, 444
only)" — per H.273 the channel assignment is Y = G, Cb = B, Cr = R —
followed by quantization to the target depth with rounding to nearest
(FULL range: the whole numeric range, no head/foot room), with no chroma
subsampling (YUV444), and the inverse direction clamping to the RGB
depth's representable range.
-/

/-- An RGB pixel: one sample per channel, each in `[0, 2^depth - 1]`. -/
structure RgbPixel where
  r : Nat
  g : Nat
  b : Nat
deriving Repr, DecidableEq

/-- A YUV pixel (4:4:4, so one chroma pair per pixel). -/
structure YuvPixel where
  y : Nat
  u : Nat
  v : Nat
deriving Repr, DecidableEq

/-- All channels of an RGB pixel are at most `m`. -/
def RgbPixel.bounded (p : RgbPixel) (m : Nat) : Prop :=
  p.r ≤ m ∧ p.g ≤ m ∧ p.b ≤ m

instance (p : RgbPixel) (m : Nat) : Decidable (p.bounded m) := by
  unfold RgbPixel.bounded; infer_instance

/-- Forward IDENTITY conversion of one pixel from RGB depth `d` to YUV
depth `d2`, FULL range: direct channel copy (Y = G, U = B, V = R)
quantized to the target depth with rounding to nearest. -/
def rgbToYuvIdentityPixel (d d2 : Nat) (p : RgbPixel) : YuvPixel :=
  { y := scaleRound (2 ^ d - 1) (2 ^ d2 - 1) p.g
    u := scaleRound (2 ^ d - 1) (2 ^ d2 - 1) p.b
    v := scaleRound (2 ^ d - 1) (2 ^ d2 - 1) p.r }

/-- Inverse IDENTITY conversion of one pixel from YUV depth `d2` back to
RGB depth `d`, FULL range, clamped to the RGB representable range. -/
def yuvToRgbIdentityPixel (d2 d : Nat) (p : YuvPixel) : RgbPixel :=
  { r := scaleRoundClamp (2 ^ d2 - 1) (2 ^ d - 1) p.v
    g := scaleRoundClamp (2 ^ d2 - 1) (2 ^ d - 1) p.y
    b := scaleRoundClamp (2 ^ d2 - 1) (2 ^ d - 1) p.u }

/-- `avifImageRGBToYUV`, IDENTITY / YUV444 / FULL-range path, over a whole
image (modelled as the list of its pixels in row-major order; YUV444 has
no subsampling so the conversion is pixelwise). -/
def rgbToYuv444Identity (d d2 : Nat) (img : List RgbPixel) : List YuvPixel :=
  img.map (rgbToYuvIdentityPixel d d2)

/-- `avifImageYUVToRGB`, IDENTITY / YUV444 / FULL-range path, over a whole
image. -/
def yuvToRgb444Identity (d2 d : Nat) (img : List YuvPixel) : List RgbPixel :=
  img.map (yuvToRgbIdentityPixel d2 d)

/-! ### YCGCO_RE / YCGCO_RO matrix coefficients (H.273 codes 16 and 17)

Modelled from the spec: the `AVIF_MATRIX_COEFFICIENTS_YCGCO_RE` /
`AVIF_MATRIX_COEFFICIENTS_YCGCO_RO` paths of `avifImageRGBToYUV` /
`avifImageYUVToRGB` (implemented in `reformat.c`, absent from the
provided sources): "YCGCO_RE/YCGCO_RO (reversible/lossless variants
requiring the YUV depth to be exactly source depth + 2 or + 1 bits
respectively, and FULL range only — used for guaranteed-lossless
roundtrips)".  The two families share the YCgCo-R integer lifting
transform of H.273 (Co = R - B; t = B + (Co >> 1); Cg = G - t;
Y = t + (Cg >> 1), with `>>` the arithmetic shift, i.e. floor division
by two), differing only in the mandated depth delta.  Chroma samples
are stored with the mid-range offset `2^(yuvDepth-1)` added. -/

/-- Clamp an integer sample into `[0, maxValue]` and store it as `Nat`. -/
def clampSample (maxValue : Nat) (x : Int) : Nat :=
  (min x (maxValue : Int)).toNat

/-- Value range of a YUV image: LIMITED reserves head/foot room, FULL
maps the whole numeric range. -/
inductive AvifRange where
  | limited
  | full
deriving Repr, DecidableEq

/-- Forward YCgCo-R conversion of one pixel to YUV depth `d2`
(FULL range; chroma stored with the mid-range offset). -/
def rgbToYuvYCgCoRPixel (d2 : Nat) (p : RgbPixel) : YuvPixel :=
  let co : Int := (p.r : Int) - (p.b : Int)
  let t : Int := (p.b : Int) + co / 2
  let cg : Int := (p.g : Int) - t
  { y := clampSample (2 ^ d2 - 1) (t + cg / 2)
    u := clampSample (2 ^ d2 - 1) (cg + ((2 ^ (d2 - 1) : Nat) : Int))
    v := clampSample (2 ^ d2 - 1) (co + ((2 ^ (d2 - 1) : Nat) : Int)) }

/-- Inverse YCgCo-R conversion of one pixel from YUV depth `d2` back to
RGB depth `d`, clamped to the RGB representable range. -/
def yuvToRgbYCgCoRPixel (d2 d : Nat) (p : YuvPixel) : RgbPixel :=
  let cg : Int := (p.u : Int) - ((2 ^ (d2 - 1) : Nat) : Int)
  let co : Int := (p.v : Int) - ((2 ^ (d2 - 1) : Nat) : Int)
  let t : Int := (p.y : Int) - cg / 2
  { r := clampSample (2 ^ d - 1) (t - co / 2 + co)
    g := clampSample (2 ^ d - 1) (cg + t)
    b := clampSample (2 ^ d - 1) (t - co / 2) }

/-- `avifImageRGBToYUV`, YCGCO_RE/YCGCO_RO / YUV444 / FULL-range path,
over a whole image. -/
def rgbToYuv444YCgCoR (d2 : Nat) (img : List RgbPixel) : List YuvPixel :=
  img.map (rgbToYuvYCgCoRPixel d2)

/-- `avifImageYUVToRGB`, YCGCO_RE/YCGCO_RO / YUV444 / FULL-range path,
over a whole image. -/
def yuvToRgb444YCgCoR (d2 d : Nat) (img : List YuvPixel) : List RgbPixel :=
  img.map (yuvToRgbYCgCoRPixel d2 d)

/-- Modelled from the spec: the configuration check of
`avifPrepareReformatState` (absent from the provided sources) for the
YCGCO_RE (`re = true`) and YCGCO_RO (`re = false`) matrix families:
the YUV depth must be exactly the RGB depth + 2 (RE) or + 1 (RO), and
the range must be FULL; any other combination is rejected. -/
def ycgcoRAccepted (re : Bool) (rgbDepth yuvDepth : Nat)
    (range : AvifRange) : Bool :=
  (yuvDepth == rgbDepth + (if re then 2 else 1)) && (range == AvifRange.full)

/-! ### Grayscale RGB input

Modelled from the spec: the Kr/Kb matrix-coefficient path of
`avifImageRGBToYUV` / `avifImageYUVToRGB` (implemented in `reformat.c`,
absent from the provided sources): "standard luma/chroma linear
transforms with per-family Kr/Kb constants", quantization "to the target
depth and range (FULL maps the full numeric range; LIMITED reserves
head/foot room per BT.601/2020 convention), with rounding to nearest",
and the inverse clamping to the RGB representable range.  Per BT.601
convention LIMITED luma spans `16·2^(d-8) .. 235·2^(d-8)` and LIMITED
chroma spans `224·2^(d-8)` codes around the mid-range point
`2^(d-1)`. -/

/-- Round to nearest, half away from zero on nonnegative input
(`avifRoundf` on the values arising here): `⌊q + 1/2⌋`. -/
def roundHalfUp (q : ℚ) : Int := ⌊q + 1 / 2⌋

/-- Normalized luma `Y' = Kr·R' + Kg·G' + Kb·B'` with `Kg = 1 - Kr - Kb`,
on channel samples normalized by the RGB white level `m`. -/
def lumaNorm (kr kb : ℚ) (m : Nat) (r g b : Nat) : ℚ :=
  kr * ((r : ℚ) / m) + (1 - kr - kb) * ((g : ℚ) / m) + kb * ((b : ℚ) / m)

/-- Normalized blue-difference chroma `Cb = (B' - Y') / (2(1 - Kb))`. -/
def cbNorm (kr kb : ℚ) (m : Nat) (r g b : Nat) : ℚ :=
  ((b : ℚ) / m - lumaNorm kr kb m r g b) / (2 * (1 - kb))

/-- Normalized red-difference chroma `Cr = (R' - Y') / (2(1 - Kr))`. -/
def crNorm (kr kb : ℚ) (m : Nat) (r g b : Nat) : ℚ :=
  ((r : ℚ) / m - lumaNorm kr kb m r g b) / (2 * (1 - kr))

/-- Quantize normalized luma to YUV depth `d`: FULL range maps `[0,1]`
onto `[0, 2^d - 1]`; LIMITED range onto `16·2^(d-8) + [0, 219·2^(d-8)]`;
rounding to nearest, clamped to the representable range. -/
def quantLuma (range : AvifRange) (d : Nat) (y : ℚ) : Nat :=
  match range with
  | .full => clampSample (2 ^ d - 1) (roundHalfUp (y * (2 ^ d - 1 : Nat)))
  | .limited => clampSample (2 ^ d - 1)
      (roundHalfUp (y * (219 * 2 ^ (d - 8) : Nat)) + (16 * 2 ^ (d - 8) : Nat))

/-- Quantize normalized chroma (in `[-1/2, 1/2]`) to YUV depth `d`,
around the mid-range point `2^(d-1)`. -/
def quantChroma (range : AvifRange) (d : Nat) (c : ℚ) : Nat :=
  match range with
  | .full => clampSample (2 ^ d - 1)
      (roundHalfUp (c * (2 ^ d - 1 : Nat)) + (2 ^ (d - 1) : Nat))
  | .limited => clampSample (2 ^ d - 1)
      (roundHalfUp (c * (224 * 2 ^ (d - 8) : Nat)) + (2 ^ (d - 1) : Nat))

/-- Dequantize a luma sample of YUV depth `d` back to an RGB sample at
white level `m`, rounding to nearest and clamping to `[0, m]`. -/
def dequantLuma (range : AvifRange) (d : Nat) (m : Nat) (y : Nat) : Nat :=
  match range with
  | .full => clampSample m (roundHalfUp ((y : ℚ) / (2 ^ d - 1 : Nat) * m))
  | .limited => clampSample m
      (roundHalfUp (((y : ℚ) - (16 * 2 ^ (d - 8) : Nat)) / (219 * 2 ^ (d - 8) : Nat) * m))

/-- `avifImageRGBToYUV` on one gray pixel (R = G = B = `v` at RGB depth
`d`), to YUV depth `d2`: Y from the full matrix transform of R, G, B,
and chroma from the Cb/Cr transforms (identically mid-gray on gray
input; for YUV400 the chroma planes are absent, for subsampled formats
averaging the constant chroma yields the same constant). -/
def grayPixelToYuv (kr kb : ℚ) (d d2 : Nat) (range : AvifRange) (v : Nat) :
    YuvPixel :=
  { y := quantLuma range d2 (lumaNorm kr kb (2 ^ d - 1) v v v)
    u := quantChroma range d2 (cbNorm kr kb (2 ^ d - 1) v v v)
    v := quantChroma range d2 (crNorm kr kb (2 ^ d - 1) v v v) }

/-- `avifImageRGBToYUV` on a whole gray image (list of gray samples). -/
def grayRgbToYuvImage (kr kb : ℚ) (d d2 : Nat) (range : AvifRange)
    (img : List Nat) : List YuvPixel :=
  img.map (grayPixelToYuv kr kb d d2 range)

/-- `avifImageYUVToRGB` back to a gray image at RGB depth `d` (for gray
content the chroma differences are zero, so the inverse matrix transform
reduces to dequantizing the luma plane). -/
def yuvImageToGray (range : AvifRange) (d2 d : Nat) (img : List YuvPixel) :
    List Nat :=
  img.map (fun p => dequantLuma range d2 (2 ^ d - 1) p.y)

/-! ### Gain-map utility commands

Embedded from `apps/avifgainmaputil/combine_command.cc` (the max-headroom
clamping step and the gain-map dimension computation of
`CombineCommand::Run`) and `swapbase_command.cc` (`ChangeBase`).  The
external libavif calls these commands make (`avifImageCopy`,
`avifImageApplyGainMap`, `avifImageRGBToYUV`, `avifRWDataSet`) are
supplied as an environment of call outcomes; the command code is
embedded statement by statement. -/

/-- `avifResult` (restricted to the codes these commands produce). -/
inductive AvifResult where
  | ok
  | invalidArgument
  | outOfMemory
  | notImplemented
  | unknownError
deriving Repr, DecidableEq

/-- `avifPixelFormat` (the YUV formats). -/
inductive PixelFormat where
  | yuv444
  | yuv422
  | yuv420
  | yuv400
deriving Repr, DecidableEq

/-- `avifUnsignedFraction`: an unsigned rational `n / d`. -/
structure UnsignedFraction where
  n : Nat
  d : Nat
deriving Repr, DecidableEq

/-- `avifSignedFraction`: a signed rational, used for gain-map offsets. -/
structure SignedFraction where
  n : Int
  d : Nat
deriving Repr, DecidableEq

/-- `avifContentLightLevelInformationBox`. -/
structure Clli where
  maxCLL : Nat
  maxPALL : Nat
deriving Repr, DecidableEq

/-- CICP code `AVIF_COLOR_PRIMARIES_UNSPECIFIED`. -/
def AVIF_COLOR_PRIMARIES_UNSPECIFIED : Nat := 2

/-- CICP code `AVIF_TRANSFER_CHARACTERISTICS_UNSPECIFIED`. -/
def AVIF_TRANSFER_CHARACTERISTICS_UNSPECIFIED : Nat := 2

/-- CICP code `AVIF_TRANSFER_CHARACTERISTICS_SRGB`. -/
def AVIF_TRANSFER_CHARACTERISTICS_SRGB : Nat := 13

/-- CICP code `AVIF_TRANSFER_CHARACTERISTICS_PQ` (SMPTE ST 2084). -/
def AVIF_TRANSFER_CHARACTERISTICS_PQ : Nat := 16

/-- CICP code `AVIF_MATRIX_COEFFICIENTS_UNSPECIFIED`. -/
def AVIF_MATRIX_COEFFICIENTS_UNSPECIFIED : Nat := 2

/-- The embedded `avifImage` holding the gain map's sample planes (its
own `gainMap` field is never used, so it is modelled without one). -/
structure GainMapImage where
  width : Nat
  height : Nat
  depth : Nat
  yuvFormat : PixelFormat
  clli : Clli
  yuvPlanes : List Nat
deriving Repr, DecidableEq

/-- `avifGainMap`: the gain-map metadata attached to a base image.  The
per-channel base/alternate offsets are the three-element offset arrays. -/
structure GainMap where
  image : Option GainMapImage
  baseHdrHeadroom : UnsignedFraction
  alternateHdrHeadroom : UnsignedFraction
  baseOffset : List SignedFraction
  alternateOffset : List SignedFraction
  useBaseColorSpace : Bool
  altColorPrimaries : Nat
  altTransferCharacteristics : Nat
  altMatrixCoefficients : Nat
  altYUVRange : AvifRange
  altDepth : Nat
  altPlaneCount : Nat
  altCLLI : Clli
  altICC : List Nat
deriving Repr, DecidableEq

/-- `avifImage` (the metadata and plane payload these commands read and
write; planes are opaque byte payloads). -/
structure Image where
  width : Nat
  height : Nat
  depth : Nat
  yuvFormat : PixelFormat
  yuvRange : AvifRange
  colorPrimaries : Nat
  transferCharacteristics : Nat
  matrixCoefficients : Nat
  clli : Clli
  icc : List Nat
  yuvPlanes : List Nat
  gainMap : Option GainMap
deriving Repr, DecidableEq

/-- Modelled from the spec: `avifDoubleToUnsignedFraction` (implemented
in the library's numerics utilities, absent from the provided sources):
the "best rational approximation of a float within N bits" utility "with
a defined failure mode when no exact/bounded-denominator representation
exists"; per the Compute contract the cap must be "exactly representable
as a rational — failure otherwise signals INVALID_ARGUMENT".  Modelled
as the exact representation with 32-bit numerator and denominator when
one exists. -/
def avifDoubleToUnsignedFraction (q : ℚ) : Option UnsignedFraction :=
  if 0 ≤ q ∧ q.num ≤ (2 ^ 32 - 1 : Int) ∧ q.den ≤ 2 ^ 32 - 1 then
    some ⟨q.num.toNat, q.den⟩
  else
    none

/-- One headroom-capping step of `CombineCommand::Run`
(combine_command.cc lines 137-146 and 147-157): if the cap is exceeded
under the cross-multiplied comparison
`max_headroom * headroom.d < headroom.n`, the stored headroom is
replaced by `avifDoubleToUnsignedFraction(max_headroom)`, failing with
`AVIF_RESULT_INVALID_ARGUMENT` when no representation exists. -/
def capFraction (cap : ℚ) (f : UnsignedFraction) :
    Except AvifResult UnsignedFraction :=
  if cap * (f.d : ℚ) < (f.n : ℚ) then
    match avifDoubleToUnsignedFraction cap with
    | some f2 => .ok f2
    | none => .error .invalidArgument
  else
    .ok f

/-- The max-headroom clamping step of `CombineCommand::Run`
(combine_command.cc lines 136-158): skipped entirely unless
`max_headroom > 0`; otherwise the base headroom is capped first and the
alternate headroom second, each failure exiting immediately. -/
def applyMaxHeadroomCap (cap : ℚ) (gm : GainMap) : Except AvifResult GainMap :=
  if 0 < cap then
    match capFraction cap gm.baseHdrHeadroom with
    | .error e => .error e
    | .ok fb =>
      match capFraction cap gm.alternateHdrHeadroom with
      | .error e => .error e
      | .ok fa => .ok { gm with baseHdrHeadroom := fb, alternateHdrHeadroom := fa }
  else
    .ok gm

/-- Wrap-around modulus of `uint32_t` arithmetic. -/
def U32 : Nat := 2 ^ 32

/-- `std::max<int>(1, arg_downscaling_)` converted to `uint32_t`
(combine_command.cc line 111). -/
def gainMapDownscaling (arg : Int) : Nat := (max 1 arg).toNat

/-- One gain-map dimension (combine_command.cc lines 112-116):
`std::max((dim + downscaling / 2) / downscaling, 1u)` in `uint32_t`
arithmetic (the sum wraps mod `2^32`). -/
def gainMapDim (dim downscaling : Nat) : Nat :=
  max (((dim + downscaling / 2) % U32) / downscaling) 1

/-- The gain-map image dimensions created by `CombineCommand::Run`
(combine_command.cc lines 111-123). -/
def gainMapDims (width height : Nat) (arg : Int) : Nat × Nat :=
  (gainMapDim width (gainMapDownscaling arg),
   gainMapDim height (gainMapDownscaling arg))

/-- `avifImageCopy(dst, &image, /*planes=*/0)`: copies every metadata
field — including the gain map and the gain map image's metadata — but
no pixel planes. -/
def copyMetadata (src : Image) : Image :=
  { src with
    yuvPlanes := []
    gainMap := src.gainMap.map (fun gm =>
      { gm with image := gm.image.map (fun gi => { gi with yuvPlanes := [] }) }) }

/-- `std::swap` on the pair of offset arrays. -/
def swapPair (p : α × α) : α × α := (p.2, p.1)

/-- Outcomes of the external libavif calls made by `ChangeBase`,
supplied as an environment: the metadata copy (`avifImageCopy`), the
tone mapping (`avifImageApplyGainMap`, which on success fills an RGB
buffer and optionally computes CLLI), the RGB-to-YUV conversion
(`avifImageRGBToYUV`, producing the output planes), the gain-map plane
copy (`avifImageCopy` with `AVIF_PLANES_YUV`), and the ICC payload set
(`avifRWDataSet`). -/
structure ChangeBaseEnv where
  copyMetadataOk : Bool
  applyGainMapResult : AvifResult
  applyComputedClli : Clli
  rgbToYuvResult : AvifResult
  rgbToYuvPlanes : List Nat
  copyPlanesOk : Bool
  setIccOk : Bool
deriving Repr, DecidableEq

/-- `ChangeBase` (swapbase_command.cc lines 189-290), embedded statement
by statement.  Returns the `avifResult`, the final state of the output
image `swapped` (initially `swapped0`, an empty image from
`avifImageCreateEmpty`), and whether `avifImageApplyGainMap` was
invoked. -/
def changeBase (env : ChangeBaseEnv) (image : Image) (depth : Nat)
    (yuvFormat : PixelFormat) (swapped0 : Image) :
    AvifResult × Image × Bool :=
  match image.gainMap with
  | none => (.invalidArgument, swapped0, false)
  | some gm =>
    match gm.image with
    | none => (.invalidArgument, swapped0, false)
    | some gmImage =>
      -- Copy all metadata (no planes).
      if env.copyMetadataOk = false then (.outOfMemory, swapped0, false)
      else
        let swapped1 : Image :=
          { copyMetadata image with depth := depth, yuvFormat := yuvFormat }
        if gm.alternateHdrHeadroom.d = 0 then (.invalidArgument, swapped1, false)
        else
          -- headroom == 0.0f iff the numerator is zero (d ≠ 0 here, and
          -- n/d with 32-bit n, d cannot underflow to 0.0f for n ≠ 0).
          let toneMappingToSdr : Bool := gm.alternateHdrHeadroom.n == 0
          let cp : Nat :=
            if gm.altColorPrimaries == AVIF_COLOR_PRIMARIES_UNSPECIFIED then
              image.colorPrimaries
            else gm.altColorPrimaries
          let tc : Nat :=
            if gm.altTransferCharacteristics ==
                AVIF_TRANSFER_CHARACTERISTICS_UNSPECIFIED then
              (if toneMappingToSdr then AVIF_TRANSFER_CHARACTERISTICS_SRGB
               else AVIF_TRANSFER_CHARACTERISTICS_PQ)
            else gm.altTransferCharacteristics
          let mc : Nat :=
            if gm.altMatrixCoefficients == AVIF_MATRIX_COEFFICIENTS_UNSPECIFIED
            then image.matrixCoefficients
            else gm.altMatrixCoefficients
          let swapped2 : Image :=
            { swapped1 with
              colorPrimaries := cp
              transferCharacteristics := tc
              matrixCoefficients := mc }
          let clli0 : Clli := gmImage.clli
          let computeClli : Bool :=
            !toneMappingToSdr && (clli0.maxCLL == 0) && (clli0.maxPALL == 0)
          if env.applyGainMapResult ≠ .ok then
            (env.applyGainMapResult, swapped2, true)
          else if env.rgbToYuvResult ≠ .ok then
            (env.rgbToYuvResult, swapped2, true)
          else
            let clli : Clli :=
              if computeClli then env.applyComputedClli else clli0
            let swapped3 : Image :=
              { swapped2 with yuvPlanes := env.rgbToYuvPlanes, clli := clli }
            -- Copy the gain map's planes.
            if env.copyPlanesOk = false then (.outOfMemory, swapped3, true)
            else
              let swapped4 : Image :=
                { swapped3 with gainMap := some { gm with image := some gmImage } }
              if env.setIccOk = false then (.outOfMemory, swapped4, true)
              else
                -- Fill in the information on the alternate image.
                let gmAlt : GainMap :=
                  { gm with
                    image := some gmImage
                    altICC := image.icc
                    altColorPrimaries := image.colorPrimaries
                    altTransferCharacteristics := image.transferCharacteristics
                    altMatrixCoefficients := image.matrixCoefficients
                    altYUVRange := image.yuvRange
                    altDepth := image.depth
                    altPlaneCount :=
                      if image.yuvFormat = PixelFormat.yuv400 then 1 else 3
                    altCLLI := image.clli }
                -- Swap base and alternate in the gain map: the source's
                -- loop runs `std::swap` on the two offset arrays once per
                -- channel index, i.e. three times in total.
                let offs : List SignedFraction × List SignedFraction :=
                  swapPair (swapPair (swapPair
                    (gmAlt.baseOffset, gmAlt.alternateOffset)))
                let gmFinal : GainMap :=
                  { gmAlt with
                    useBaseColorSpace := !gmAlt.useBaseColorSpace
                    baseHdrHeadroom := gmAlt.alternateHdrHeadroom
                    alternateHdrHeadroom := gmAlt.baseHdrHeadroom
                    baseOffset := offs.1
                    alternateOffset := offs.2 }
                (.ok, { swapped4 with gainMap := some gmFinal }, true)

/-! ## Theorems -/

theorem nat_div_eq_of_lt_le {a b q : Nat} (lo : q * b ≤ a) (hi : a < (q + 1) * b) :
    a / b = q := by
  have hb : 0 < b := by
    rcases Nat.eq_zero_or_pos b with h | h
    · subst h; omega
    · exact h
  exact Nat.div_eq_of_lt_le lo hi

/-- Rescaling to an equal or higher white level and back is the identity:
the forward rounding error is at most `1/2` and shrinks under the inverse
scaling, so the second rounding recovers the original sample. -/
theorem scaleRound_roundtrip (M M2 v : Nat) (hM : 1 ≤ M) (hMM : M ≤ M2)
    (hv : v ≤ M) : scaleRoundClamp M2 M (scaleRound M M2 v) = v := by
  rcases Nat.lt_or_ge M M2 with hlt | hge
  · -- strictly higher target white level
    unfold scaleRoundClamp scaleRound
    set q := (2 * v * M2 + M) / (2 * M) with hq
    have hdm := Nat.div_add_mod (2 * v * M2 + M) (2 * M)
    have hmod : (2 * v * M2 + M) % (2 * M) < 2 * M :=
      Nat.mod_lt _ (by omega)
    rw [← hq] at hdm
    set r := (2 * v * M2 + M) % (2 * M) with hr
    -- hdm : 2 * M * q + r = 2 * v * M2 + M
    have key : (2 * q * M + M2) / (2 * M2) = v := by
      apply nat_div_eq_of_lt_le
      · -- v * (2 * M2) ≤ 2 * q * M + M2
        nlinarith [hdm, hmod, hlt]
      · -- 2 * q * M + M2 < (v + 1) * (2 * M2)
        nlinarith [hdm, hmod, hlt]
    rw [key]
    exact Nat.min_eq_right hv
  · -- equal white levels
    have hMeq : M = M2 := le_antisymm hMM hge
    subst hMeq
    have hfwd : scaleRound M M v = v := by
      unfold scaleRound
      apply nat_div_eq_of_lt_le <;> nlinarith
    rw [hfwd]
    unfold scaleRoundClamp
    have hbk : (2 * v * M + M) / (2 * M) = v := by
      apply nat_div_eq_of_lt_le <;> nlinarith
    rw [hbk]
    exact Nat.min_eq_right hv

theorem identityPixel_roundtrip (d d2 : Nat) (hd : 1 ≤ d) (hdd : d ≤ d2)
    (p : RgbPixel) (hp : p.bounded (2 ^ d - 1)) :
    yuvToRgbIdentityPixel d2 d (rgbToYuvIdentityPixel d d2 p) = p := by
  obtain ⟨hr, hg, hb⟩ := hp
  have hM : 1 ≤ 2 ^ d - 1 := by
    have : 2 ^ 1 ≤ 2 ^ d := Nat.pow_le_pow_right (by omega) hd
    omega
  have hMM : 2 ^ d - 1 ≤ 2 ^ d2 - 1 := by
    have : 2 ^ d ≤ 2 ^ d2 := Nat.pow_le_pow_right (by omega) hdd
    omega
  cases p with
  | mk pr pg pb =>
    simp only [rgbToYuvIdentityPixel, yuvToRgbIdentityPixel, RgbPixel.mk.injEq]
    exact ⟨scaleRound_roundtrip _ _ _ hM hMM hr,
           scaleRound_roundtrip _ _ _ hM hMM hg,
           scaleRound_roundtrip _ _ _ hM hMM hb⟩

/-- C1: For every RGB image at depth `D ∈ {8,10,12,16}` converted to
YUV444 with IDENTITY matrix coefficients at a YUV depth `≥ D` and FULL
range, converting back to RGB at depth `D` yields exactly the input image
(zero per-sample difference for every pixel and channel). -/
theorem C1_identity_roundtrip_lossless (d d2 : Nat)
    (hd : d = 8 ∨ d = 10 ∨ d = 12 ∨ d = 16) (hdd : d ≤ d2)
    (img : List RgbPixel) (himg : ∀ p ∈ img, p.bounded (2 ^ d - 1)) :
    yuvToRgb444Identity d2 d (rgbToYuv444Identity d d2 img) = img := by
  unfold rgbToYuv444Identity yuvToRgb444Identity
  rw [List.map_map]
  conv_rhs => rw [← List.map_id img]
  apply List.map_congr_left
  intro p hp
  exact identityPixel_roundtrip d d2 (by omega) hdd p (himg p hp)

/-- Witness for C1 at a concrete image: depth 8 to YUV depth 12. -/
theorem C1_identity_roundtrip_lossless_witness :
    yuvToRgb444Identity 12 8
      (rgbToYuv444Identity 8 12 [⟨0, 1, 255⟩, ⟨17, 128, 254⟩]) =
      [⟨0, 1, 255⟩, ⟨17, 128, 254⟩] :=
  C1_identity_roundtrip_lossless 8 12 (by decide) (by decide)
    [⟨0, 1, 255⟩, ⟨17, 128, 254⟩] (by decide)

set_option maxHeartbeats 1000000 in
theorem ycgcoRPixel_roundtrip (d d2 : Nat) (hdd : d + 1 ≤ d2)
    (p : RgbPixel) (hp : p.bounded (2 ^ d - 1)) :
    yuvToRgbYCgCoRPixel d2 d (rgbToYuvYCgCoRPixel d2 p) = p := by
  obtain ⟨R, G, B⟩ := p
  obtain ⟨hr, hg, hb⟩ := hp
  have h2 : (2 : Nat) ^ d ≤ 2 ^ (d2 - 1) := Nat.pow_le_pow_right (by omega) (by omega)
  have h3 : (2 : Nat) ^ (d2 - 1) * 2 = 2 ^ d2 := by
    rw [← pow_succ]
    congr 1
    omega
  have h1 : 1 ≤ (2 : Nat) ^ d := Nat.one_le_two_pow
  simp only [rgbToYuvYCgCoRPixel, yuvToRgbYCgCoRPixel, clampSample,
    RgbPixel.mk.injEq] at hr hg hb ⊢
  revert h1 h2 h3 hr hg hb
  generalize (2 : Nat) ^ d2 = m2
  generalize (2 : Nat) ^ (d2 - 1) = off
  generalize (2 : Nat) ^ d = m
  intro h1 h2 h3 hr hg hb
  omega

theorem ycgcoR_image_roundtrip (d d2 : Nat) (hdd : d + 1 ≤ d2)
    (img : List RgbPixel) (himg : ∀ p ∈ img, p.bounded (2 ^ d - 1)) :
    yuvToRgb444YCgCoR d2 d (rgbToYuv444YCgCoR d2 img) = img := by
  unfold rgbToYuv444YCgCoR yuvToRgb444YCgCoR
  rw [List.map_map]
  conv_rhs => rw [← List.map_id img]
  apply List.map_congr_left
  intro p hp
  exact ycgcoRPixel_roundtrip d d2 hdd p (himg p hp)

/-- C2: For every RGB image at depth `D` converted to YUV444 with
YCGCO_RE matrix coefficients at YUV depth exactly `D + 2` (or YCGCO_RO
at exactly `D + 1`) and FULL range, the RGB-to-YUV-to-RGB round trip is
exact; and these matrix families are only accepted with that depth delta
and FULL range. -/
theorem C2_ycgcoR_roundtrip_lossless (d : Nat)
    (img : List RgbPixel) (himg : ∀ p ∈ img, p.bounded (2 ^ d - 1)) :
    yuvToRgb444YCgCoR (d + 2) d (rgbToYuv444YCgCoR (d + 2) img) = img ∧
    yuvToRgb444YCgCoR (d + 1) d (rgbToYuv444YCgCoR (d + 1) img) = img ∧
    (∀ d2 range, ycgcoRAccepted true d d2 range = true ↔
      (d2 = d + 2 ∧ range = AvifRange.full)) ∧
    (∀ d2 range, ycgcoRAccepted false d d2 range = true ↔
      (d2 = d + 1 ∧ range = AvifRange.full)) := by
  refine ⟨ycgcoR_image_roundtrip d (d + 2) (by omega) img himg,
          ycgcoR_image_roundtrip d (d + 1) (by omega) img himg, ?_, ?_⟩ <;>
  · intro d2 range
    unfold ycgcoRAccepted
    cases range <;> simp

/-- Witness for C2 at a concrete 8-bit image (RE at depth 10, RO at
depth 9, and the acceptance conditions at a sample configuration). -/
theorem C2_ycgcoR_roundtrip_lossless_witness :
    yuvToRgb444YCgCoR 10 8 (rgbToYuv444YCgCoR 10 [⟨255, 0, 3⟩, ⟨1, 254, 128⟩]) =
      [⟨255, 0, 3⟩, ⟨1, 254, 128⟩] ∧
    yuvToRgb444YCgCoR 9 8 (rgbToYuv444YCgCoR 9 [⟨255, 0, 3⟩, ⟨1, 254, 128⟩]) =
      [⟨255, 0, 3⟩, ⟨1, 254, 128⟩] ∧
    ycgcoRAccepted true 8 10 AvifRange.full = true ∧
    ycgcoRAccepted false 8 10 AvifRange.full = false := by
  have h := C2_ycgcoR_roundtrip_lossless 8 [⟨255, 0, 3⟩, ⟨1, 254, 128⟩] (by decide)
  exact ⟨h.1, h.2.1, (h.2.2.1 10 AvifRange.full).2 ⟨rfl, rfl⟩, by decide⟩

theorem lumaNorm_gray (kr kb : ℚ) (m v : Nat) :
    lumaNorm kr kb m v v v = (v : ℚ) / m := by
  unfold lumaNorm
  ring

theorem cbNorm_gray (kr kb : ℚ) (m v : Nat) : cbNorm kr kb m v v v = 0 := by
  unfold cbNorm
  rw [lumaNorm_gray]
  simp

theorem crNorm_gray (kr kb : ℚ) (m v : Nat) : crNorm kr kb m v v v = 0 := by
  unfold crNorm
  rw [lumaNorm_gray]
  simp

theorem roundHalfUp_zero : roundHalfUp 0 = 0 := by
  unfold roundHalfUp
  rw [zero_add, Int.floor_eq_iff]
  norm_num

/-- `roundHalfUp` of a scaled rational fraction is the integer
rounding `(2·v·M2 + m) / (2·m)`. -/
theorem roundHalfUp_scale (v m M2 : Nat) (hm : m ≠ 0) :
    roundHalfUp ((v : ℚ) / m * M2) = ((2 * v * M2 + m) / (2 * m) : Nat) := by
  unfold roundHalfUp
  have key : (v : ℚ) / m * M2 + 1 / 2 =
      ((2 * v * M2 + m : Nat) : ℚ) / ((2 * m : Nat) : ℚ) := by
    have hm2 : (m : ℚ) ≠ 0 := Nat.cast_ne_zero.mpr hm
    push_cast
    field_simp
    ring
  rw [key, Rat.floor_natCast_div_natCast]
  exact_mod_cast rfl

/-- The rescaled sample stays within the target white level. -/
theorem scaleRound_le (m M2 v : Nat) (hm : 1 ≤ m) (hv : v ≤ m) :
    scaleRound m M2 v ≤ M2 := by
  unfold scaleRound
  have h : 2 * v * M2 + m < (M2 + 1) * (2 * m) := by nlinarith
  have := Nat.div_lt_of_lt_mul (by linarith [h] : 2 * v * M2 + m < 2 * m * (M2 + 1))
  omega

theorem clampSample_natCast (b a : Nat) : clampSample b (a : Int) = min a b := by
  unfold clampSample
  omega

theorem clampSample_add_natCast (b q off : Nat) :
    clampSample b ((q : Int) + (off : Int)) = min (q + off) b := by
  unfold clampSample
  omega

/-- Quantized luma of a gray sample, FULL range, is the rescaled
sample. -/
theorem quantLuma_full_gray (kr kb : ℚ) (d d2 v : Nat) (hd : 1 ≤ d)
    (hv : v ≤ 2 ^ d - 1) :
    quantLuma .full d2 (lumaNorm kr kb (2 ^ d - 1) v v v) =
      scaleRound (2 ^ d - 1) (2 ^ d2 - 1) v := by
  have hm : 2 ^ d - 1 ≠ 0 := by
    have : (2 : Nat) ^ 1 ≤ 2 ^ d := Nat.pow_le_pow_right (by omega) hd
    omega
  simp only [quantLuma]
  rw [lumaNorm_gray, roundHalfUp_scale v _ _ hm, clampSample_natCast]
  exact Nat.min_eq_left (scaleRound_le _ _ _ (by omega) hv)

/-- Quantized luma of a gray sample, LIMITED range: footroom offset plus
the sample rescaled to the 219-codes-per-stop span. -/
theorem quantLuma_limited_gray (kr kb : ℚ) (d d2 v : Nat) (hd : 1 ≤ d)
    (hd2 : 8 ≤ d2) (hv : v ≤ 2 ^ d - 1) :
    quantLuma .limited d2 (lumaNorm kr kb (2 ^ d - 1) v v v) =
      16 * 2 ^ (d2 - 8) + scaleRound (2 ^ d - 1) (219 * 2 ^ (d2 - 8)) v := by
  have hm : 2 ^ d - 1 ≠ 0 := by
    have : (2 : Nat) ^ 1 ≤ 2 ^ d := Nat.pow_le_pow_right (by omega) hd
    omega
  have hle : scaleRound (2 ^ d - 1) (219 * 2 ^ (d2 - 8)) v ≤ 219 * 2 ^ (d2 - 8) :=
    scaleRound_le _ _ _ (by omega) hv
  have hpow : (2 : Nat) ^ d2 = 2 ^ (d2 - 8) * 256 := by
    rw [(by norm_num : (256 : Nat) = 2 ^ 8), ← pow_add]
    congr 1
    omega
  simp only [quantLuma]
  rw [lumaNorm_gray, roundHalfUp_scale v _ _ hm]
  rw [show ((16 * 2 ^ (d2 - 8) : Nat) : Int) = (((16 * 2 ^ (d2 - 8) : Nat) : Nat) : Int)
    from rfl]
  rw [clampSample_add_natCast]
  unfold scaleRound at hle ⊢
  have h1 : 1 ≤ (2 : Nat) ^ (d2 - 8) := Nat.one_le_two_pow
  omega

/-- Quantized chroma of the zero chroma difference is the mid-range
constant `2^(d-1)`, in both ranges. -/
theorem quantChroma_zero (range : AvifRange) (d : Nat) (hd : 1 ≤ d) :
    quantChroma range d 0 = 2 ^ (d - 1) := by
  have hpow : (2 : Nat) ^ d = 2 ^ (d - 1) * 2 := by
    rw [← pow_succ]
    congr 1
    omega
  have h1 : 1 ≤ (2 : Nat) ^ (d - 1) := Nat.one_le_two_pow
  cases range <;>
  · simp only [quantChroma]
    rw [zero_mul, roundHalfUp_zero]
    unfold clampSample
    omega

/-- Dequantizing FULL-range luma is the clamped inverse rescaling. -/
theorem dequantLuma_full (d2 m y : Nat) (hd2 : 1 ≤ d2) :
    dequantLuma .full d2 m y = scaleRoundClamp (2 ^ d2 - 1) m y := by
  have hM2 : 2 ^ d2 - 1 ≠ 0 := by
    have : (2 : Nat) ^ 1 ≤ 2 ^ d2 := Nat.pow_le_pow_right (by omega) hd2
    omega
  simp only [dequantLuma]
  rw [roundHalfUp_scale y _ _ hM2, clampSample_natCast]
  unfold scaleRoundClamp
  exact Nat.min_comm _ _

/-- Dequantizing LIMITED-range luma after the footroom offset is the
clamped inverse rescaling from the 219-code span. -/
theorem dequantLuma_limited (d2 m q : Nat) :
    dequantLuma .limited d2 m (16 * 2 ^ (d2 - 8) + q) =
      scaleRoundClamp (219 * 2 ^ (d2 - 8)) m q := by
  have hspan : (219 : Nat) * 2 ^ (d2 - 8) ≠ 0 := by positivity
  simp only [dequantLuma]
  have hsub : ((16 * 2 ^ (d2 - 8) + q : Nat) : ℚ) - ((16 * 2 ^ (d2 - 8) : Nat) : ℚ) =
      ((q : Nat) : ℚ) := by
    push_cast
    ring
  rw [hsub, roundHalfUp_scale q _ _ hspan, clampSample_natCast]
  unfold scaleRoundClamp
  exact Nat.min_comm _ _

/-- C3 counterexample: the claim asserts the Y plane equals the input
samples exactly also at a strictly greater YUV depth; but the gray
8-bit image `[1]` converted to 12-bit YUV (BT601 constants
Kr = 299/1000, Kb = 57/500, FULL range) stores the depth-rescaled luma
`round(1·4095/255) = 16 ≠ 1` in the Y plane. -/
theorem C3_counterexample_y_plane_at_higher_depth :
    (grayRgbToYuvImage (299 / 1000) (57 / 500) 8 12 .full [1]).map YuvPixel.y
      ≠ [1] := by
  unfold grayRgbToYuvImage
  intro h
  simp only [List.map_map, List.map_cons, List.map_nil, Function.comp] at h
  have hy : (grayPixelToYuv (299 / 1000) (57 / 500) 8 12 .full 1).y = 16 := by
    show quantLuma .full 12 (lumaNorm (299 / 1000) (57 / 500) (2 ^ 8 - 1) 1 1 1) = 16
    rw [quantLuma_full_gray _ _ 8 12 1 (by omega) (by omega)]
    decide
  rw [hy] at h
  exact absurd (List.head_eq_of_cons_eq h) (by decide)

/-- C3 (amended): for every gray RGB image at depth `D ∈ {8,10,12,16}`
converted to YUV depth `D2 ∈ {8,10,12,16}` with `D2 ≥ D`: at equal depth
with FULL range the Y plane equals the input samples exactly; with FULL
range (any `D2 ≥ D`), or LIMITED range at strictly greater depth,
converting back to depth `D` recovers the input exactly; and any
populated U/V samples hold the mid-gray constant `2^(D2-1)` for the YUV
depth (128 at 8-bit, 512 at 10-bit, 2048 at 12-bit, 32768 at 16-bit) in
both ranges at every such depth combination. -/
theorem C3_gray_conversion_amended (kr kb : ℚ) (d d2 : Nat)
    (range : AvifRange)
    (hd : d = 8 ∨ d = 10 ∨ d = 12 ∨ d = 16)
    (hd2 : d2 = 8 ∨ d2 = 10 ∨ d2 = 12 ∨ d2 = 16)
    (hdd : d ≤ d2)
    (img : List Nat) (himg : ∀ v ∈ img, v ≤ 2 ^ d - 1) :
    ((range = .full ∧ d2 = d) →
      (grayRgbToYuvImage kr kb d d2 range img).map YuvPixel.y = img) ∧
    ((range = .full ∨ d < d2) →
      yuvImageToGray range d2 d (grayRgbToYuvImage kr kb d d2 range img) = img) ∧
    (∀ p ∈ grayRgbToYuvImage kr kb d d2 range img,
      p.u = 2 ^ (d2 - 1) ∧ p.v = 2 ^ (d2 - 1)) := by
  have hd1 : 1 ≤ d := by omega
  have hM : 1 ≤ 2 ^ d - 1 := by
    have : (2 : Nat) ^ 8 ≤ 2 ^ d := Nat.pow_le_pow_right (by omega) (by omega)
    omega
  refine ⟨?_, ?_, ?_⟩
  · rintro ⟨hfull, hsame⟩
    subst hfull
    subst hsame
    unfold grayRgbToYuvImage
    rw [List.map_map]
    conv_rhs => rw [← List.map_id img]
    apply List.map_congr_left
    intro v hv
    show quantLuma .full d2 (lumaNorm kr kb (2 ^ d2 - 1) v v v) = v
    rw [quantLuma_full_gray kr kb d2 d2 v hd1 (himg v hv)]
    unfold scaleRound
    apply nat_div_eq_of_lt_le <;> nlinarith [hM, himg v hv]
  · intro hr
    unfold grayRgbToYuvImage yuvImageToGray
    rw [List.map_map]
    conv_rhs => rw [← List.map_id img]
    apply List.map_congr_left
    intro v hv
    show dequantLuma range d2 (2 ^ d - 1) (grayPixelToYuv kr kb d d2 range v).y = v
    cases range with
    | full =>
      show dequantLuma .full d2 (2 ^ d - 1)
        (quantLuma .full d2 (lumaNorm kr kb (2 ^ d - 1) v v v)) = v
      rw [quantLuma_full_gray kr kb d d2 v hd1 (himg v hv),
        dequantLuma_full _ _ _ (by omega)]
      apply scaleRound_roundtrip _ _ _ hM ?_ (himg v hv)
      have : (2 : Nat) ^ d ≤ 2 ^ d2 := Nat.pow_le_pow_right (by omega) hdd
      omega
    | limited =>
      have hlt : d < d2 := by
        rcases hr with h | h
        · exact absurd h (by simp)
        · exact h
      show dequantLuma .limited d2 (2 ^ d - 1)
        (quantLuma .limited d2 (lumaNorm kr kb (2 ^ d - 1) v v v)) = v
      rw [quantLuma_limited_gray kr kb d d2 v hd1 (by omega) (himg v hv),
        dequantLuma_limited _ _ _]
      apply scaleRound_roundtrip _ _ _ hM ?_ (himg v hv)
      have h1 : (2 : Nat) ^ d ≤ 2 ^ (d2 - 1) := Nat.pow_le_pow_right (by omega) (by omega)
      have h2 : (2 : Nat) ^ d2 ≤ 2 ^ (d2 - 8) * 2 ^ d2 := Nat.le_mul_of_pos_left _ Nat.one_le_two_pow
      have h3 : (2 : Nat) ^ (d2 - 8) * 219 ≥ 2 ^ (d2 - 8) * 128 := by
        apply Nat.mul_le_mul_left
        omega
      have h4 : (2 : Nat) ^ (d2 - 8) * 128 = 2 ^ (d2 - 1) := by
        rw [(by norm_num : (128 : Nat) = 2 ^ 7), ← pow_add]
        congr 1
        omega
      omega
  · intro p hp
    unfold grayRgbToYuvImage at hp
    obtain ⟨v, hv, rfl⟩ := List.mem_map.mp hp
    constructor
    · show quantChroma range d2 (cbNorm kr kb (2 ^ d - 1) v v v) = 2 ^ (d2 - 1)
      rw [cbNorm_gray]
      exact quantChroma_zero range d2 (by omega)
    · show quantChroma range d2 (crNorm kr kb (2 ^ d - 1) v v v) = 2 ^ (d2 - 1)
      rw [crNorm_gray]
      exact quantChroma_zero range d2 (by omega)

/-- Witness for the amended C3 at concrete images: the 8-bit gray image
`[4, 3, 2, 1]` lifted to 12-bit LIMITED-range YUV and back, with
mid-gray chroma 2048; and the same image converted to 8-bit
LIMITED-range YUV, whose chroma is the mid-gray constant 128. -/
theorem C3_gray_conversion_amended_witness :
    yuvImageToGray .limited 12 8
        (grayRgbToYuvImage (299 / 1000) (57 / 500) 8 12 .limited [4, 3, 2, 1]) =
      [4, 3, 2, 1] ∧
    (∀ p ∈ grayRgbToYuvImage (299 / 1000) (57 / 500) 8 12 .limited [4, 3, 2, 1],
      p.u = 2048 ∧ p.v = 2048) ∧
    (∀ p ∈ grayRgbToYuvImage (299 / 1000) (57 / 500) 8 8 .limited [4, 3, 2, 1],
      p.u = 128 ∧ p.v = 128) := by
  have h := C3_gray_conversion_amended (299 / 1000) (57 / 500) 8 12 .limited
    (by tauto) (by tauto) (by omega) [4, 3, 2, 1] (by decide)
  have h8 := C3_gray_conversion_amended (299 / 1000) (57 / 500) 8 8 .limited
    (by tauto) (by tauto) (by omega) [4, 3, 2, 1] (by decide)
  exact ⟨h.2.1 (by omega), h.2.2, h8.2.2⟩

theorem C6_changeBase_swap_fields (env : ChangeBaseEnv) (image : Image)
    (depth : Nat) (fmt : PixelFormat) (swapped0 : Image) (gm : GainMap)
    (hgm : image.gainMap = some gm)
    (hok : (changeBase env image depth fmt swapped0).1 = .ok) :
    ∃ gm2, (changeBase env image depth fmt swapped0).2.1.gainMap = some gm2 ∧
      gm2.baseHdrHeadroom = gm.alternateHdrHeadroom ∧
      gm2.alternateHdrHeadroom = gm.baseHdrHeadroom ∧
      gm2.baseOffset = gm.alternateOffset ∧
      gm2.alternateOffset = gm.baseOffset ∧
      gm2.useBaseColorSpace = !gm.useBaseColorSpace ∧
      gm2.altColorPrimaries = image.colorPrimaries ∧
      gm2.altTransferCharacteristics = image.transferCharacteristics ∧
      gm2.altMatrixCoefficients = image.matrixCoefficients ∧
      gm2.altYUVRange = image.yuvRange ∧
      gm2.altDepth = image.depth ∧
      gm2.altPlaneCount = (if image.yuvFormat = PixelFormat.yuv400 then 1 else 3) ∧
      gm2.altCLLI = image.clli ∧
      gm2.altICC = image.icc := by
  cases himg : gm.image with
  | none =>
    simp only [changeBase, hgm, himg] at hok
    exact absurd hok (by simp)
  | some gmi =>
    simp only [changeBase, hgm, himg] at hok ⊢
    by_cases hcopy : env.copyMetadataOk = false
    · rw [if_pos hcopy] at hok
      simp at hok
    · rw [if_neg hcopy] at hok ⊢
      by_cases hd0 : gm.alternateHdrHeadroom.d = 0
      · rw [if_pos hd0] at hok
        simp at hok
      · rw [if_neg hd0] at hok ⊢
        by_cases happ : env.applyGainMapResult ≠ .ok
        · rw [if_pos happ] at hok
          simp at hok
          exact absurd hok happ
        · rw [if_neg happ] at hok ⊢
          by_cases hyuv : env.rgbToYuvResult ≠ .ok
          · rw [if_pos hyuv] at hok
            simp at hok
            exact absurd hok hyuv
          · rw [if_neg hyuv] at hok ⊢
            by_cases hpl : env.copyPlanesOk = false
            · rw [if_pos hpl] at hok
              simp at hok
            · rw [if_neg hpl] at hok ⊢
              by_cases hicc : env.setIccOk = false
              · rw [if_pos hicc] at hok
                simp at hok
              · rw [if_neg hicc] at hok ⊢
                exact ⟨_, rfl, rfl, rfl, rfl, rfl, rfl, rfl, rfl, rfl, rfl,
                  rfl, rfl, rfl, rfl⟩

theorem avifDoubleToUnsignedFraction_exact (q : ℚ) (f : UnsignedFraction)
    (h : avifDoubleToUnsignedFraction q = some f) :
    (f.n : ℚ) = q * f.d := by
  unfold avifDoubleToUnsignedFraction at h
  split_ifs at h with hc
  · obtain ⟨h0, h1, h2⟩ := hc
    injection h with h
    subst h
    show ((q.num.toNat : Nat) : ℚ) = q * q.den
    have hnum : (q.num.toNat : Int) = q.num :=
      Int.toNat_of_nonneg (Rat.num_nonneg.mpr h0)
    have hden : ((q.den : ℚ)) ≠ 0 := Nat.cast_ne_zero.mpr q.den_nz
    have := Rat.num_div_den q
    have hval : (q.num : ℚ) = q * q.den := by
      rw [div_eq_iff hden] at this
      exact this
    rw [← hval]
    exact_mod_cast hnum

theorem capFraction_ok_le (cap : ℚ) (f f2 : UnsignedFraction)
    (h : capFraction cap f = .ok f2) :
    (f2.n : ℚ) ≤ cap * f2.d ∨ f2 = f := by
  unfold capFraction at h
  split_ifs at h with hc
  · cases hrep : avifDoubleToUnsignedFraction cap with
    | none => rw [hrep] at h; exact absurd h (by simp)
    | some fr =>
      rw [hrep] at h
      injection h with h
      subst h
      exact Or.inl (le_of_eq (avifDoubleToUnsignedFraction_exact cap _ hrep))
  · injection h with h
    subst h
    push_neg at hc
    exact Or.inl hc

theorem capFraction_ok_spec (cap : ℚ) (f f2 : UnsignedFraction)
    (h : capFraction cap f = .ok f2) :
    (cap * (f.d : ℚ) < f.n → avifDoubleToUnsignedFraction cap = some f2) ∧
    (¬ cap * (f.d : ℚ) < f.n → f2 = f) := by
  unfold capFraction at h
  split_ifs at h with hc
  · cases hrep : avifDoubleToUnsignedFraction cap with
    | none => rw [hrep] at h; exact absurd h (by simp)
    | some fr =>
      rw [hrep] at h
      injection h with h
      subst h
      exact ⟨fun _ => rfl, fun hn => absurd hc hn⟩
  · injection h with h
    subst h
    exact ⟨fun hyes => absurd hyes hc, fun _ => rfl⟩

/-- C4 statement. -/
theorem C4_max_headroom_cap (cap : ℚ) (gm : GainMap) :
    (¬ 0 < cap → applyMaxHeadroomCap cap gm = .ok gm) ∧
    (0 < cap → ∀ gm2, applyMaxHeadroomCap cap gm = .ok gm2 →
      (cap * (gm.baseHdrHeadroom.d : ℚ) < gm.baseHdrHeadroom.n →
        avifDoubleToUnsignedFraction cap = some gm2.baseHdrHeadroom) ∧
      (¬ cap * (gm.baseHdrHeadroom.d : ℚ) < gm.baseHdrHeadroom.n →
        gm2.baseHdrHeadroom = gm.baseHdrHeadroom) ∧
      (cap * (gm.alternateHdrHeadroom.d : ℚ) < gm.alternateHdrHeadroom.n →
        avifDoubleToUnsignedFraction cap = some gm2.alternateHdrHeadroom) ∧
      (¬ cap * (gm.alternateHdrHeadroom.d : ℚ) < gm.alternateHdrHeadroom.n →
        gm2.alternateHdrHeadroom = gm.alternateHdrHeadroom) ∧
      ((gm2.baseHdrHeadroom.n : ℚ) ≤ cap * gm2.baseHdrHeadroom.d ∨
        gm2.baseHdrHeadroom = gm.baseHdrHeadroom) ∧
      ((gm2.alternateHdrHeadroom.n : ℚ) ≤ cap * gm2.alternateHdrHeadroom.d ∨
        gm2.alternateHdrHeadroom = gm.alternateHdrHeadroom)) ∧
    (0 < cap → avifDoubleToUnsignedFraction cap = none →
      (cap * (gm.baseHdrHeadroom.d : ℚ) < gm.baseHdrHeadroom.n ∨
       cap * (gm.alternateHdrHeadroom.d : ℚ) < gm.alternateHdrHeadroom.n) →
      applyMaxHeadroomCap cap gm = .error .invalidArgument) := by
  refine ⟨?_, ?_, ?_⟩
  · intro hneg
    unfold applyMaxHeadroomCap
    rw [if_neg hneg]
  · intro hpos gm2 hok
    unfold applyMaxHeadroomCap at hok
    rw [if_pos hpos] at hok
    cases hb : capFraction cap gm.baseHdrHeadroom with
    | error e => rw [hb] at hok; exact absurd hok (by simp)
    | ok fb =>
      rw [hb] at hok
      cases ha : capFraction cap gm.alternateHdrHeadroom with
      | error e => rw [ha] at hok; exact absurd hok (by simp)
      | ok fa =>
        rw [ha] at hok
        injection hok with hok
        subst hok
        obtain ⟨hb1, hb2⟩ := capFraction_ok_spec cap _ _ hb
        obtain ⟨ha1, ha2⟩ := capFraction_ok_spec cap _ _ ha
        refine ⟨hb1, hb2, ha1, ha2, ?_, ?_⟩
        · simpa using capFraction_ok_le cap _ _ hb
        · simpa using capFraction_ok_le cap _ _ ha
  · intro hpos hnone hneed
    unfold applyMaxHeadroomCap capFraction
    rw [if_pos hpos]
    rcases hneed with hneed | hneed
    · rw [if_pos hneed, hnone]
    · by_cases hbase : cap * (gm.baseHdrHeadroom.d : ℚ) < gm.baseHdrHeadroom.n
      · rw [if_pos hbase, hnone]
      · rw [if_neg hbase, if_pos hneed, hnone]

theorem C10_changeBase_cicp_defaults (env : ChangeBaseEnv) (image : Image)
    (depth : Nat) (fmt : PixelFormat) (swapped0 : Image) (gm : GainMap)
    (hgm : image.gainMap = some gm)
    (hcp : gm.altColorPrimaries = AVIF_COLOR_PRIMARIES_UNSPECIFIED)
    (htc : gm.altTransferCharacteristics =
      AVIF_TRANSFER_CHARACTERISTICS_UNSPECIFIED)
    (hmc : gm.altMatrixCoefficients = AVIF_MATRIX_COEFFICIENTS_UNSPECIFIED)
    (hok : (changeBase env image depth fmt swapped0).1 = .ok) :
    (changeBase env image depth fmt swapped0).2.1.colorPrimaries =
      image.colorPrimaries ∧
    (changeBase env image depth fmt swapped0).2.1.matrixCoefficients =
      image.matrixCoefficients ∧
    (changeBase env image depth fmt swapped0).2.1.transferCharacteristics =
      (if gm.alternateHdrHeadroom.n = 0 then AVIF_TRANSFER_CHARACTERISTICS_SRGB
       else AVIF_TRANSFER_CHARACTERISTICS_PQ) := by
  cases himg : gm.image with
  | none =>
    simp only [changeBase, hgm, himg] at hok
    exact absurd hok (by simp)
  | some gmi =>
    simp only [changeBase, hgm, himg] at hok ⊢
    by_cases hcopy : env.copyMetadataOk = false
    · rw [if_pos hcopy] at hok
      simp at hok
    · rw [if_neg hcopy] at hok ⊢
      by_cases hd0 : gm.alternateHdrHeadroom.d = 0
      · rw [if_pos hd0] at hok
        simp at hok
      · rw [if_neg hd0] at hok ⊢
        by_cases happ : env.applyGainMapResult ≠ .ok
        · rw [if_pos happ] at hok
          simp at hok
          exact absurd hok happ
        · rw [if_neg happ] at hok ⊢
          by_cases hyuv : env.rgbToYuvResult ≠ .ok
          · rw [if_pos hyuv] at hok
            simp at hok
            exact absurd hok hyuv
          · rw [if_neg hyuv] at hok ⊢
            by_cases hpl : env.copyPlanesOk = false
            · rw [if_pos hpl] at hok
              simp at hok
            · rw [if_neg hpl] at hok ⊢
              by_cases hicc : env.setIccOk = false
              · rw [if_pos hicc] at hok
                simp at hok
              · rw [if_neg hicc] at hok ⊢
                simp [hcp, htc, hmc, AVIF_COLOR_PRIMARIES_UNSPECIFIED,
                  AVIF_TRANSFER_CHARACTERISTICS_UNSPECIFIED,
                  AVIF_MATRIX_COEFFICIENTS_UNSPECIFIED]

theorem C7_amended_no_partial_before_copy (env : ChangeBaseEnv)
    (image : Image) (depth : Nat) (fmt : PixelFormat) (swapped0 : Image) :
    (image.gainMap = none →
      changeBase env image depth fmt swapped0 =
        (.invalidArgument, swapped0, false)) ∧
    (∀ gm, image.gainMap = some gm → gm.image = none →
      changeBase env image depth fmt swapped0 =
        (.invalidArgument, swapped0, false)) := by
  constructor
  · intro hnone
    simp only [changeBase, hnone]
  · intro gm hgm hgmi
    simp only [changeBase, hgm, hgmi]

theorem C7_counterexample_partial_output_on_failure :
    (changeBase ⟨true, .ok, ⟨0, 0⟩, .ok, [5], true, true⟩
        ⟨4, 3, 8, .yuv444, .full, 1, 13, 1, ⟨0, 0⟩, [], [9],
          some ⟨some ⟨1, 1, 8, .yuv444, ⟨0, 0⟩, [7]⟩, ⟨1, 1⟩, ⟨2, 0⟩, [], [],
            true, 2, 2, 2, .full, 0, 3, ⟨0, 0⟩, []⟩⟩
        8 .yuv444 ⟨0, 0, 0, .yuv444, .full, 0, 0, 0, ⟨0, 0⟩, [], [], none⟩).1 ≠
        .ok ∧
    (changeBase ⟨true, .ok, ⟨0, 0⟩, .ok, [5], true, true⟩
        ⟨4, 3, 8, .yuv444, .full, 1, 13, 1, ⟨0, 0⟩, [], [9],
          some ⟨some ⟨1, 1, 8, .yuv444, ⟨0, 0⟩, [7]⟩, ⟨1, 1⟩, ⟨2, 0⟩, [], [],
            true, 2, 2, 2, .full, 0, 3, ⟨0, 0⟩, []⟩⟩
        8 .yuv444 ⟨0, 0, 0, .yuv444, .full, 0, 0, 0, ⟨0, 0⟩, [], [], none⟩).2.1 ≠
      ⟨0, 0, 0, .yuv444, .full, 0, 0, 0, ⟨0, 0⟩, [], [], none⟩ := by
  constructor
  · decide
  · decide

theorem C9_gain_map_dimensions (width height : Nat) (arg : Int)
    (hw : width + gainMapDownscaling arg / 2 < U32)
    (hh : height + gainMapDownscaling arg / 2 < U32) :
    1 ≤ gainMapDownscaling arg ∧
    gainMapDims width height arg =
      (max ((width + gainMapDownscaling arg / 2) / gainMapDownscaling arg) 1,
       max ((height + gainMapDownscaling arg / 2) / gainMapDownscaling arg) 1) ∧
    1 ≤ (gainMapDims width height arg).1 ∧
    1 ≤ (gainMapDims width height arg).2 := by
  have h1 : 1 ≤ gainMapDownscaling arg := by
    unfold gainMapDownscaling
    omega
  refine ⟨h1, ?_, ?_, ?_⟩
  · unfold gainMapDims gainMapDim
    rw [Nat.mod_eq_of_lt hw, Nat.mod_eq_of_lt hh]
  · unfold gainMapDims gainMapDim
    omega
  · unfold gainMapDims gainMapDim
    omega

theorem C5_changeBase_invalidArgument (env : ChangeBaseEnv) (image : Image)
    (depth : Nat) (fmt : PixelFormat) (swapped0 : Image) :
    ((image.gainMap = none ∨ ∃ gm, image.gainMap = some gm ∧ gm.image = none) →
      changeBase env image depth fmt swapped0 =
        (.invalidArgument, swapped0, false)) ∧
    (∀ gm gmi, image.gainMap = some gm → gm.image = some gmi →
      env.copyMetadataOk = true → gm.alternateHdrHeadroom.d = 0 →
      (changeBase env image depth fmt swapped0).1 = .invalidArgument ∧
      (changeBase env image depth fmt swapped0).2.2 = false) := by
  constructor
  · rintro (hnone | ⟨gm, hgm, hgmi⟩)
    · simp only [changeBase, hnone]
    · simp only [changeBase, hgm, hgmi]
  · intro gm gmi hgm hgmi hcopy hd0
    simp only [changeBase, hgm, hgmi, hcopy]
    simp [hd0]

theorem C5_changeBase_invalidArgument_witness :
    (changeBase ⟨true, .ok, ⟨0, 0⟩, .ok, [5], true, true⟩
        ⟨4, 3, 8, .yuv444, .full, 1, 13, 1, ⟨0, 0⟩, [], [9],
          some ⟨some ⟨1, 1, 8, .yuv444, ⟨0, 0⟩, [7]⟩, ⟨1, 1⟩, ⟨2, 0⟩, [], [],
            true, 2, 2, 2, .full, 0, 3, ⟨0, 0⟩, []⟩⟩
        8 .yuv444 ⟨0, 0, 0, .yuv444, .full, 0, 0, 0, ⟨0, 0⟩, [], [], none⟩).1 =
      .invalidArgument ∧
    (changeBase ⟨true, .ok, ⟨0, 0⟩, .ok, [5], true, true⟩
        ⟨4, 3, 8, .yuv444, .full, 1, 13, 1, ⟨0, 0⟩, [], [9],
          some ⟨some ⟨1, 1, 8, .yuv444, ⟨0, 0⟩, [7]⟩, ⟨1, 1⟩, ⟨2, 0⟩, [], [],
            true, 2, 2, 2, .full, 0, 3, ⟨0, 0⟩, []⟩⟩
        8 .yuv444 ⟨0, 0, 0, .yuv444, .full, 0, 0, 0, ⟨0, 0⟩, [], [], none⟩).2.2 =
      false :=
  (C5_changeBase_invalidArgument _ _ _ _ _).2 _ _ rfl rfl rfl rfl

theorem C6_changeBase_swap_fields_witness :
    ∃ gm2,
      (changeBase ⟨true, .ok, ⟨6, 7⟩, .ok, [5], true, true⟩
          ⟨4, 3, 8, .yuv400, .limited, 1, 13, 5, ⟨11, 12⟩, [3, 1], [9],
            some ⟨some ⟨1, 1, 8, .yuv444, ⟨0, 0⟩, [7]⟩, ⟨1, 2⟩, ⟨5, 3⟩,
              [⟨1, 7⟩], [⟨-2, 9⟩], true, 9, 16, 9, .full, 10, 3, ⟨4, 5⟩,
              [8]⟩⟩
          10 .yuv444
          ⟨0, 0, 0, .yuv444, .full, 0, 0, 0, ⟨0, 0⟩, [], [], none⟩).2.1.gainMap =
        some gm2 ∧
      gm2.baseHdrHeadroom = ⟨5, 3⟩ ∧
      gm2.alternateHdrHeadroom = ⟨1, 2⟩ ∧
      gm2.baseOffset = [⟨-2, 9⟩] ∧
      gm2.alternateOffset = [⟨1, 7⟩] ∧
      gm2.useBaseColorSpace = false ∧
      gm2.altColorPrimaries = 1 ∧
      gm2.altTransferCharacteristics = 13 ∧
      gm2.altMatrixCoefficients = 5 ∧
      gm2.altYUVRange = .limited ∧
      gm2.altDepth = 8 ∧
      gm2.altPlaneCount = 1 ∧
      gm2.altCLLI = ⟨11, 12⟩ ∧
      gm2.altICC = [3, 1] := by
  obtain ⟨gm2, h⟩ := C6_changeBase_swap_fields
    ⟨true, .ok, ⟨6, 7⟩, .ok, [5], true, true⟩
    ⟨4, 3, 8, .yuv400, .limited, 1, 13, 5, ⟨11, 12⟩, [3, 1], [9],
      some ⟨some ⟨1, 1, 8, .yuv444, ⟨0, 0⟩, [7]⟩, ⟨1, 2⟩, ⟨5, 3⟩,
        [⟨1, 7⟩], [⟨-2, 9⟩], true, 9, 16, 9, .full, 10, 3, ⟨4, 5⟩, [8]⟩⟩
    10 .yuv444
    ⟨0, 0, 0, .yuv444, .full, 0, 0, 0, ⟨0, 0⟩, [], [], none⟩
    _ rfl (by decide)
  exact ⟨gm2, by simpa using h⟩

theorem C7_amended_no_partial_before_copy_witness :
    changeBase ⟨true, .ok, ⟨0, 0⟩, .ok, [5], true, true⟩
        ⟨4, 3, 8, .yuv444, .full, 1, 13, 1, ⟨0, 0⟩, [], [9], none⟩
        8 .yuv444 ⟨0, 0, 0, .yuv444, .full, 0, 0, 0, ⟨0, 0⟩, [], [], none⟩ =
      (.invalidArgument,
        ⟨0, 0, 0, .yuv444, .full, 0, 0, 0, ⟨0, 0⟩, [], [], none⟩, false) :=
  (C7_amended_no_partial_before_copy _ _ _ _ _).1 rfl

theorem C9_gain_map_dimensions_witness :
    1 ≤ gainMapDownscaling 3 ∧
    gainMapDims 100 51 3 =
      (max ((100 + gainMapDownscaling 3 / 2) / gainMapDownscaling 3) 1,
       max ((51 + gainMapDownscaling 3 / 2) / gainMapDownscaling 3) 1) ∧
    1 ≤ (gainMapDims 100 51 3).1 ∧
    1 ≤ (gainMapDims 100 51 3).2 :=
  C9_gain_map_dimensions 100 51 3 (by decide) (by decide)

theorem C10_changeBase_cicp_defaults_witness :
    (changeBase ⟨true, .ok, ⟨6, 7⟩, .ok, [5], true, true⟩
        ⟨4, 3, 8, .yuv444, .full, 1, 13, 6, ⟨0, 0⟩, [], [9],
          some ⟨some ⟨1, 1, 8, .yuv444, ⟨0, 0⟩, [7]⟩, ⟨1, 2⟩, ⟨0, 3⟩,
            [⟨1, 7⟩], [⟨-2, 9⟩], true, 2, 2, 2, .full, 10, 3, ⟨4, 5⟩,
            [8]⟩⟩
        10 .yuv444
        ⟨0, 0, 0, .yuv444, .full, 0, 0, 0, ⟨0, 0⟩, [], [], none⟩).2.1.colorPrimaries =
      1 ∧
    (changeBase ⟨true, .ok, ⟨6, 7⟩, .ok, [5], true, true⟩
        ⟨4, 3, 8, .yuv444, .full, 1, 13, 6, ⟨0, 0⟩, [], [9],
          some ⟨some ⟨1, 1, 8, .yuv444, ⟨0, 0⟩, [7]⟩, ⟨1, 2⟩, ⟨0, 3⟩,
            [⟨1, 7⟩], [⟨-2, 9⟩], true, 2, 2, 2, .full, 10, 3, ⟨4, 5⟩,
            [8]⟩⟩
        10 .yuv444
        ⟨0, 0, 0, .yuv444, .full, 0, 0, 0, ⟨0, 0⟩, [], [], none⟩).2.1.matrixCoefficients =
      6 ∧
    (changeBase ⟨true, .ok, ⟨6, 7⟩, .ok, [5], true, true⟩
        ⟨4, 3, 8, .yuv444, .full, 1, 13, 6, ⟨0, 0⟩, [], [9],
          some ⟨some ⟨1, 1, 8, .yuv444, ⟨0, 0⟩, [7]⟩, ⟨1, 2⟩, ⟨0, 3⟩,
            [⟨1, 7⟩], [⟨-2, 9⟩], true, 2, 2, 2, .full, 10, 3, ⟨4, 5⟩,
            [8]⟩⟩
        10 .yuv444
        ⟨0, 0, 0, .yuv444, .full, 0, 0, 0, ⟨0, 0⟩, [], [], none⟩).2.1.transferCharacteristics =
      AVIF_TRANSFER_CHARACTERISTICS_SRGB := by
  have h := C10_changeBase_cicp_defaults
    ⟨true, .ok, ⟨6, 7⟩, .ok, [5], true, true⟩
    ⟨4, 3, 8, .yuv444, .full, 1, 13, 6, ⟨0, 0⟩, [], [9],
      some ⟨some ⟨1, 1, 8, .yuv444, ⟨0, 0⟩, [7]⟩, ⟨1, 2⟩, ⟨0, 3⟩,
        [⟨1, 7⟩], [⟨-2, 9⟩], true, 2, 2, 2, .full, 10, 3, ⟨4, 5⟩, [8]⟩⟩
    10 .yuv444
    ⟨0, 0, 0, .yuv444, .full, 0, 0, 0, ⟨0, 0⟩, [], [], none⟩
    _ rfl rfl rfl rfl (by decide)
  simpa using h

theorem C4_max_headroom_cap_witness :
    applyMaxHeadroomCap 4
        ⟨none, ⟨9, 2⟩, ⟨3, 1⟩, [], [], true, 2, 2, 2, .full, 0, 3, ⟨0, 0⟩, []⟩ =
      .ok ⟨none, ⟨4, 1⟩, ⟨3, 1⟩, [], [], true, 2, 2, 2, .full, 0, 3, ⟨0, 0⟩, []⟩ ∧
    ((((4 : Nat) : ℚ) ≤ 4 * ((1 : Nat) : ℚ) ∨
        (⟨4, 1⟩ : UnsignedFraction) = ⟨9, 2⟩) ∧
      (((3 : Nat) : ℚ) ≤ 4 * ((1 : Nat) : ℚ) ∨
        (⟨3, 1⟩ : UnsignedFraction) = ⟨3, 1⟩)) := by
  have happ : applyMaxHeadroomCap 4
      ⟨none, ⟨9, 2⟩, ⟨3, 1⟩, [], [], true, 2, 2, 2, .full, 0, 3, ⟨0, 0⟩, []⟩ =
      .ok ⟨none, ⟨4, 1⟩, ⟨3, 1⟩, [], [], true, 2, 2, 2, .full, 0, 3,
        ⟨0, 0⟩, []⟩ := by
    unfold applyMaxHeadroomCap capFraction avifDoubleToUnsignedFraction
    norm_num [Rat.num_ofNat, Rat.den_ofNat]
    decide
  have h := (C4_max_headroom_cap 4
    ⟨none, ⟨9, 2⟩, ⟨3, 1⟩, [], [], true, 2, 2, 2, .full, 0, 3, ⟨0, 0⟩, []⟩).2.1
    (by norm_num) _ happ
  exact ⟨happ, h.2.2.2.2.1, h.2.2.2.2.2⟩

end Avif
